import Mathlib

/-!
Shallow embedding of the OpenBLT bootloader core under verification:
the CAN bit-timing resolver and packet receiver
(Target/Source/ARMCM4_STM32F3/can.c) and the CPU hand-off and bulk
memory routines (Target/Source/ARMCM4_XMC4/cpu.c).

Machine integers are modelled as `Nat`; where the C code truncates a
value by storing it into a narrower unsigned type, the truncation is
made explicit with `% 2^w`.  Stateful C functions that write through
out-parameters are modelled in state-passing style: the caller-visible
output locations are threaded through as explicit values.
-/

/-! ## CAN bit-timing resolver (can.c) -/

/-- One row of the constant CAN bus-timing table `canTiming` in can.c:
`(tseg1, tseg2)`, both `blt_int8u` in the source. -/
def canTiming : List (Nat × Nat) :=
  [(5, 2), (6, 2), (6, 3), (7, 3), (8, 3), (9, 3), (9, 4), (10, 4),
   (11, 4), (12, 4), (12, 5), (13, 5), (14, 5), (15, 5), (15, 6),
   (16, 6), (16, 7), (16, 8)]

/-- The three caller-visible output locations of `CanGetSpeedConfig`:
`*prescaler` (a `blt_int16u`), `*tseg1` and `*tseg2` (both `blt_int8u`). -/
structure CanOutputs where
  prescaler : Nat
  tseg1 : Nat
  tseg2 : Nat
deriving DecidableEq, Repr

/-- The loop body of `CanGetSpeedConfig` (can.c lines 121-138), iterating
over the remaining rows of the timing table.  `clock` stands for the
compile-time constant `BOOT_CPU_SYSTEM_SPEED_KHZ`.  The store
`*prescaler = (clock/2)/(baud*(tseg1+tseg2+1))` goes through a
`blt_int16u`, hence the explicit `% 65536`; note that this store happens
before the range check, exactly as in the source. -/
def canGetSpeedConfigLoop (baud clock : Nat) (out : CanOutputs) :
    List (Nat × Nat) → Bool × CanOutputs
  | [] => (false, out)
  | e :: rest =>
    if (clock / 2) % (baud * (e.1 + e.2 + 1)) = 0 then
      let p := ((clock / 2) / (baud * (e.1 + e.2 + 1))) % 65536
      if 0 < p ∧ p ≤ 1024 then
        (true, { prescaler := p, tseg1 := e.1, tseg2 := e.2 })
      else
        canGetSpeedConfigLoop baud clock { out with prescaler := p } rest
    else
      canGetSpeedConfigLoop baud clock out rest

/-- `CanGetSpeedConfig` (can.c lines 115-141) in state-passing style:
given the desired baudrate in kbps, the system clock in kHz and the
initial contents of the three output locations, return the C result
(`BLT_TRUE`/`BLT_FALSE` as `Bool`) together with the final contents of
the output locations. -/
def CanGetSpeedConfig (baud clock : Nat) (out : CanOutputs) : Bool × CanOutputs :=
  canGetSpeedConfigLoop baud clock out canTiming

/-- The untruncated prescaler quotient the C code computes for a table
row `e`: `(clock/2) / (baud * (tseg1 + tseg2 + 1))`, where the
`+ 1` accounts for the implicit SYNC time quantum. -/
def rawPrescaler (baud clock : Nat) (e : Nat × Nat) : Nat :=
  (clock / 2) / (baud * (e.1 + e.2 + 1))

/-- A table row satisfies the claim-level match condition: the halved
clock is evenly divisible by `baud * (tseg1 + tseg2 + 1)`, and the
(untruncated) quotient prescaler lies in `[1, 1024]`. -/
def entryOk (baud clock : Nat) (e : Nat × Nat) : Prop :=
  (clock / 2) % (baud * (e.1 + e.2 + 1)) = 0 ∧
  1 ≤ rawPrescaler baud clock e ∧ rawPrescaler baud clock e ≤ 1024

instance entryOkDecidable (baud clock : Nat) (e : Nat × Nat) :
    Decidable (entryOk baud clock e) :=
  inferInstanceAs (Decidable (_ = 0 ∧ 1 ≤ _ ∧ _ ≤ 1024))

/-! ## CAN packet reception (can.c) -/

/-- The received-message buffer `canRxMessage` as filled in by the HAL:
`StdId`, `ExtId`, the identifier-extension flag `IDE` (`false` for
`CAN_ID_STD`, `true` for `CAN_ID_EXT`), the data length code `DLC` and
the 8-byte `Data` array (modelled as a list; the HAL array always has 8
defined entries, so out-of-range reads default to 0 but are never
exercised for DLC at most 8). -/
structure CanRxFrame where
  stdId : Nat
  extId : Nat
  ide : Bool
  dlc : Nat
  data : List Nat
deriving DecidableEq, Repr

/-- The byte-copy loop of `CanReceivePacket` (can.c lines 314-317):
write `dst[i] := src[i]` for every `i` below `n`. -/
def copyFrameData (src dst : List Nat) : Nat → List Nat
  | 0 => dst
  | n + 1 => (copyFrameData src dst n).set n (src.getD n 0)

/-- `CanReceivePacket` (can.c lines 276-325) in state-passing style.
`rxMsgIdCfg` is the compile-time constant `BOOT_COM_CAN_RX_MSG_ID`;
`rxPending` is `some frame` when `HAL_CAN_Receive` returns `HAL_OK`
with that frame, `none` otherwise; `data` and `len` are the initial
contents of the caller's output buffers.  Returns the C result together
with the final contents of those buffers. -/
def CanReceivePacket (rxMsgIdCfg : Nat) (rxPending : Option CanRxFrame)
    (data : List Nat) (len : Nat) : Bool × List Nat × Nat :=
  match rxPending with
  | none => (false, data, len)
  | some rxMsg =>
    let packetIdMatches : Bool :=
      if rxMsgIdCfg &&& 0x80000000 = 0 then
        rxMsg.stdId == rxMsgIdCfg && rxMsg.ide == false
      else
        rxMsg.extId == (rxMsgIdCfg &&& 0x7FFFFFFF) && rxMsg.ide == true
    if packetIdMatches then
      (true, copyFrameData rxMsg.data data rxMsg.dlc, rxMsg.dlc)
    else
      (false, data, len)

/-- Modelled from the spec's description of the receive filter: the
configured identifier's reserved high bit selects the identifier width,
and a frame is accepted only when both its width flag and its
identifier value in that width exactly equal the configured ones. -/
def filterAccepts (rxMsgIdCfg : Nat) (f : CanRxFrame) : Prop :=
  if rxMsgIdCfg &&& 0x80000000 = 0 then
    f.stdId = rxMsgIdCfg ∧ f.ide = false
  else
    f.extId = rxMsgIdCfg &&& 0x7FFFFFFF ∧ f.ide = true

/-! ## CPU hand-off and bulk memory operations (cpu.c) -/

/-- Observable side effects of `CpuStartUserProgram`, in the order they
are performed. -/
inductive BootEvent where
  | comFree
  | timerReset
  | vtorWrite (value : Nat)
  | irqEnable
deriving DecidableEq, Repr

/-- How `CpuStartUserProgram` ends: returning to its caller, or
transferring control to the given address (never to return). -/
inductive BootOutcome where
  | ret
  | jump (addr : Nat)
deriving DecidableEq, Repr

/-- Environment of `CpuStartUserProgram`: the result of the external
`NvmVerifyChecksum` collaborator, the compile-time configuration flags
`BOOT_CPU_USER_PROGRAM_START_HOOK > 0` and `BOOT_COM_ENABLE > 0`, the
hook's verdict `CpuUserProgramStartHook`, the external
`NvmGetUserProgBaseAddress`, and a 32-bit word read of memory (used at
`base + 4` for the reset-handler address). -/
structure BootEnv where
  checksumOk : Bool
  hookEnabled : Bool
  hookAllows : Bool
  comEnabled : Bool
  progBase : Nat
  readWord : Nat → Nat

/-- `CpuStartUserProgram` (cpu.c lines 80-118): checksum gate, optional
start-hook gate, then the side effects `ComFree` (only when the
communication interface is compiled in), `TimerReset`, the write of
`base AND 0x1FFFFF80` to the vector-table-offset register `SCB_VTOR`,
`CpuIrqEnable`, and finally the jump to the word read at `base + 4`. -/
def CpuStartUserProgram (env : BootEnv) : List BootEvent × BootOutcome :=
  if env.checksumOk = false then
    ([], BootOutcome.ret)
  else if env.hookEnabled = true ∧ env.hookAllows = false then
    ([], BootOutcome.ret)
  else
    ((if env.comEnabled then [BootEvent.comFree] else []) ++
      [BootEvent.timerReset,
       BootEvent.vtorWrite (env.progBase &&& 0x1FFFFF80),
       BootEvent.irqEnable],
     BootOutcome.jump (env.readWord (env.progBase + 4)))

/-- `CpuMemCopy` (cpu.c lines 129-145): byte-wise copy with one
`CopService` call per byte.  Memory is a map from address to byte
value; the second component counts `CopService` invocations. -/
def CpuMemCopy (dest src : Nat) (mem : Nat → Nat) : Nat → (Nat → Nat) × Nat
  | 0 => (mem, 0)
  | len + 1 =>
    let mem2 := fun a => if a = dest then mem src else mem a
    let r := CpuMemCopy (dest + 1) (src + 1) mem2 len
    (r.1, r.2 + 1)

/-- `CpuMemSet` (cpu.c lines 156-171): byte-wise fill with one
`CopService` call per byte. -/
def CpuMemSet (dest value : Nat) (mem : Nat → Nat) : Nat → (Nat → Nat) × Nat
  | 0 => (mem, 0)
  | len + 1 =>
    let mem2 := fun a => if a = dest then value else mem a
    let r := CpuMemSet (dest + 1) value mem2 len
    (r.1, r.2 + 1)

/-! ## Theorems about the timing table and the resolver -/

/-- C8: every entry of the constant bus-timing table has tseg1 in 1..16
and tseg2 in 1..8, and entries are strictly ascending in total
time-quanta count. -/
theorem canTiming_ranges_and_sorted :
    (∀ e ∈ canTiming, 1 ≤ e.1 ∧ e.1 ≤ 16 ∧ 1 ≤ e.2 ∧ e.2 ≤ 8) ∧
    List.Chain' (fun a b : Nat × Nat => a.1 + a.2 + 1 < b.1 + b.2 + 1) canTiming := by
  constructor
  · decide
  · unfold canTiming
    simp only [List.chain'_cons, List.chain'_singleton]
    norm_num

/-- Each table row totals between 8 and 25 time quanta. -/
theorem canTiming_tq_bounds : ∀ e ∈ canTiming, 8 ≤ e.1 + e.2 + 1 ∧ e.1 + e.2 + 1 ≤ 25 := by
  decide

/-- Each table row has tseg1 in 5..16 and tseg2 in 2..8. -/
theorem canTiming_entry_ranges :
    ∀ e ∈ canTiming, 5 ≤ e.1 ∧ e.1 ≤ 16 ∧ 2 ≤ e.2 ∧ e.2 ≤ 8 := by
  decide

/-- If some table row genuinely matches, the halved clock is at most
`baud * 25600`, so every row's raw quotient is below 2^16 and the
16-bit store in the C code does not truncate. -/
theorem rawPrescaler_lt_of_entryOk (baud clock : Nat) (hb : 0 < baud)
    (e0 : Nat × Nat) (he0 : e0 ∈ canTiming) (h0 : entryOk baud clock e0) :
    ∀ e ∈ canTiming, rawPrescaler baud clock e < 65536 := by
  intro e he
  obtain ⟨hmod, h1, h2⟩ := h0
  have htq0 : e0.1 + e0.2 + 1 ≤ 25 := (canTiming_tq_bounds e0 he0).2
  have htq : 8 ≤ e.1 + e.2 + 1 := (canTiming_tq_bounds e he).1
  have hpos8 : 0 < baud * 8 := Nat.mul_pos hb (by omega)
  have hdvd : (baud * (e0.1 + e0.2 + 1)) ∣ (clock / 2) := Nat.dvd_of_mod_eq_zero hmod
  have heq : rawPrescaler baud clock e0 * (baud * (e0.1 + e0.2 + 1)) = clock / 2 :=
    Nat.div_mul_cancel hdvd
  have hle : clock / 2 ≤ baud * 25600 := by
    have h3 : rawPrescaler baud clock e0 * (baud * (e0.1 + e0.2 + 1)) ≤ 1024 * (baud * 25) :=
      Nat.mul_le_mul h2 (Nat.mul_le_mul (Nat.le_refl baud) htq0)
    have h4 : 1024 * (baud * 25) = baud * 25600 := by ring
    omega
  have hfin : rawPrescaler baud clock e ≤ 3200 := by
    calc rawPrescaler baud clock e
        = (clock / 2) / (baud * (e.1 + e.2 + 1)) := rfl
      _ ≤ (clock / 2) / (baud * 8) :=
          Nat.div_le_div_left (Nat.mul_le_mul (Nat.le_refl baud) htq) hpos8
      _ ≤ (baud * 25600) / (baud * 8) := Nat.div_le_div_right hle
      _ = 3200 := by
          rw [show baud * 25600 = (baud * 8) * 3200 by ring]
          exact Nat.mul_div_cancel_left 3200 hpos8
  omega

/-- When every remaining row's raw quotient fits in 16 bits, the loop
returns exactly the first row accepted by `entryOk`, carrying that
row's raw prescaler quotient. -/
theorem canLoop_finds_first (baud clock : Nat) :
    ∀ (l : List (Nat × Nat)) (out : CanOutputs) (e : Nat × Nat),
      (∀ x ∈ l, rawPrescaler baud clock x < 65536) →
      List.find? (fun x => decide (entryOk baud clock x)) l = some e →
      canGetSpeedConfigLoop baud clock out l =
        (true, ⟨rawPrescaler baud clock e, e.1, e.2⟩) := by
  intro l
  induction l with
  | nil => intro out e _ h; simp at h
  | cons x xs ih =>
    intro out e hlt hfind
    by_cases hx : entryOk baud clock x
    · have hex : e = x := by
        rw [List.find?_cons_of_pos _ (by simpa using hx)] at hfind
        exact (Option.some.inj hfind).symm
      subst hex
      obtain ⟨hmod, h1, h2⟩ := hx
      have hraw : rawPrescaler baud clock e % 65536 = rawPrescaler baud clock e :=
        Nat.mod_eq_of_lt (by omega)
      unfold rawPrescaler at *
      simp only [canGetSpeedConfigLoop]
      rw [if_pos hmod, if_pos (by omega)]
      rw [hraw]
    · rw [List.find?_cons_of_neg _ (by simpa using hx)] at hfind
      have ihxs : ∀ x ∈ xs, rawPrescaler baud clock x < 65536 :=
        fun y hy => hlt y (by simp [hy])
      by_cases hmod : (clock / 2) % (baud * (x.1 + x.2 + 1)) = 0
      · have hltx : rawPrescaler baud clock x < 65536 := hlt x (by simp)
        have hrawx : rawPrescaler baud clock x % 65536 = rawPrescaler baud clock x :=
          Nat.mod_eq_of_lt hltx
        have hnot : ¬(0 < ((clock / 2) / (baud * (x.1 + x.2 + 1))) % 65536 ∧
            ((clock / 2) / (baud * (x.1 + x.2 + 1))) % 65536 ≤ 1024) := by
          unfold rawPrescaler at hrawx
          rw [hrawx]
          intro hcon
          exact hx ⟨hmod, hcon.1, hcon.2⟩
        simp only [canGetSpeedConfigLoop]
        rw [if_pos hmod, if_neg hnot]
        exact ih _ e ihxs hfind
      · simp only [canGetSpeedConfigLoop]
        rw [if_neg hmod]
        exact ih out e ihxs hfind

/-- C3: for every (baud, clock) pair such that some timing-table entry
satisfies divisibility of clock/2 by baud*(tseg1+tseg2+1) with the
quotient prescaler in [1,1024], CanGetSpeedConfig returns true and
stores the prescaler, tseg1 and tseg2 of the first such entry in table
order (first-match, not best-match), deterministically. -/
theorem canGetSpeedConfig_first_match (baud clock : Nat) (hb : 0 < baud)
    (hex : ∃ e ∈ canTiming, entryOk baud clock e) (out : CanOutputs) :
    ∃ e, List.find? (fun x => decide (entryOk baud clock x)) canTiming = some e ∧
      CanGetSpeedConfig baud clock out =
        (true, ⟨rawPrescaler baud clock e, e.1, e.2⟩) := by
  obtain ⟨e0, he0, h0⟩ := hex
  have hlt := rawPrescaler_lt_of_entryOk baud clock hb e0 he0 h0
  cases hfe : List.find? (fun x => decide (entryOk baud clock x)) canTiming with
  | none =>
    exfalso
    have := List.find?_eq_none.mp hfe e0 he0
    simp [h0] at this
  | some e =>
    exact ⟨e, rfl, canLoop_finds_first baud clock canTiming out e hlt hfe⟩

/-- Witness for C3 at baud 500 kbps and a 72 MHz clock. -/
theorem canGetSpeedConfig_first_match_witness :
    ∃ e, List.find? (fun x => decide (entryOk 500 72000 x)) canTiming = some e ∧
      CanGetSpeedConfig 500 72000 ⟨0, 0, 0⟩ =
        (true, ⟨rawPrescaler 500 72000 e, e.1, e.2⟩) :=
  canGetSpeedConfig_first_match 500 72000 (by decide) (by decide) ⟨0, 0, 0⟩

/-- If no remaining row passes the code's own test (divisibility plus
16-bit-truncated prescaler in range), the loop returns false and never
touches the tseg1/tseg2 output locations; the prescaler location is
threaded through and may be overwritten. -/
theorem canLoop_no_match (baud clock : Nat) :
    ∀ (l : List (Nat × Nat)) (out : CanOutputs),
      (∀ x ∈ l, ¬((clock / 2) % (baud * (x.1 + x.2 + 1)) = 0 ∧
          0 < rawPrescaler baud clock x % 65536 ∧
          rawPrescaler baud clock x % 65536 ≤ 1024)) →
      (canGetSpeedConfigLoop baud clock out l).1 = false ∧
      (canGetSpeedConfigLoop baud clock out l).2.tseg1 = out.tseg1 ∧
      (canGetSpeedConfigLoop baud clock out l).2.tseg2 = out.tseg2 := by
  intro l
  induction l with
  | nil => intro out _; simp [canGetSpeedConfigLoop]
  | cons x xs ih =>
    intro out hno
    have hx := hno x (by simp)
    have hxs : ∀ y ∈ xs, ¬((clock / 2) % (baud * (y.1 + y.2 + 1)) = 0 ∧
        0 < rawPrescaler baud clock y % 65536 ∧
        rawPrescaler baud clock y % 65536 ≤ 1024) :=
      fun y hy => hno y (by simp [hy])
    by_cases hmod : (clock / 2) % (baud * (x.1 + x.2 + 1)) = 0
    · have hnotrange : ¬(0 < ((clock / 2) / (baud * (x.1 + x.2 + 1))) % 65536 ∧
          ((clock / 2) / (baud * (x.1 + x.2 + 1))) % 65536 ≤ 1024) := by
        unfold rawPrescaler at hx
        intro hcon
        exact hx ⟨hmod, hcon.1, hcon.2⟩
      simp only [canGetSpeedConfigLoop]
      rw [if_pos hmod, if_neg hnotrange]
      exact ih _ hxs
    · simp only [canGetSpeedConfigLoop]
      rw [if_neg hmod]
      exact ih out hxs

/-- For realistic clocks (below 2^20 kHz) every raw quotient fits in
16 bits, since each table row has at least 8 total time quanta. -/
theorem rawPrescaler_lt_of_clock (baud clock : Nat) (hb : 0 < baud)
    (hc : clock < 1048576) :
    ∀ e ∈ canTiming, rawPrescaler baud clock e < 65536 := by
  intro e he
  have htq : 8 ≤ e.1 + e.2 + 1 := (canTiming_tq_bounds e he).1
  have h8 : 8 ≤ baud * (e.1 + e.2 + 1) := by
    calc 8 = 1 * 8 := by omega
    _ ≤ baud * (e.1 + e.2 + 1) := Nat.mul_le_mul hb htq
  have h1 : rawPrescaler baud clock e ≤ (clock / 2) / 8 := by
    unfold rawPrescaler
    exact Nat.div_le_div_left h8 (by omega)
  omega

/-- C4 (amended): for every (baud, clock) pair with baud positive and
clock below 2^20 kHz such that no timing-table entry satisfies both
divisibility and the prescaler range [1,1024], CanGetSpeedConfig
returns false and leaves the tseg1 and tseg2 outputs unmodified; the
prescaler output, however, may be overwritten with a rejected
quotient. -/
theorem canGetSpeedConfig_no_match_returns_false (baud clock : Nat)
    (hb : 0 < baud) (hc : clock < 1048576)
    (hno : ∀ e ∈ canTiming, ¬ entryOk baud clock e) (out : CanOutputs) :
    (CanGetSpeedConfig baud clock out).1 = false ∧
    (CanGetSpeedConfig baud clock out).2.tseg1 = out.tseg1 ∧
    (CanGetSpeedConfig baud clock out).2.tseg2 = out.tseg2 := by
  have hlt := rawPrescaler_lt_of_clock baud clock hb hc
  apply canLoop_no_match
  intro x hx hcon
  obtain ⟨hmod, h1, h2⟩ := hcon
  have hr : rawPrescaler baud clock x % 65536 = rawPrescaler baud clock x :=
    Nat.mod_eq_of_lt (hlt x hx)
  rw [hr] at h1 h2
  exact hno x hx ⟨hmod, h1, h2⟩

/-- Witness for the amended C4 at baud 7 kbps and a 72 MHz clock, where
7 never divides 36000. -/
theorem canGetSpeedConfig_no_match_witness :
    (CanGetSpeedConfig 7 72000 ⟨3, 4, 5⟩).1 = false ∧
    (CanGetSpeedConfig 7 72000 ⟨3, 4, 5⟩).2.tseg1 = (⟨3, 4, 5⟩ : CanOutputs).tseg1 ∧
    (CanGetSpeedConfig 7 72000 ⟨3, 4, 5⟩).2.tseg2 = (⟨3, 4, 5⟩ : CanOutputs).tseg2 :=
  canGetSpeedConfig_no_match_returns_false 7 72000 (by decide) (by decide)
    (by decide) ⟨3, 4, 5⟩

/-- C4 counterexample: at baud 1 kbps and a clock of 80000 kHz no table
entry satisfies both conditions, and CanGetSpeedConfig does return
false, but the caller-visible prescaler output has been overwritten
with the rejected quotient 1600 of the last divisible entry, so the
outputs are not left free of partially-validated results. -/
theorem canGetSpeedConfig_prescaler_written_counterexample :
    (∀ e ∈ canTiming, ¬ entryOk 1 80000 e) ∧
    CanGetSpeedConfig 1 80000 ⟨0, 0, 0⟩ = (false, ⟨1600, 0, 0⟩) ∧
    (1600 : Nat) ≠ 0 := by
  exact ⟨by decide, by decide, by decide⟩

/-- Whenever the loop succeeds, the delivered outputs come from some row
of the scanned list: divisibility held for that row, and the delivered
prescaler is that row's quotient truncated to 16 bits and inside
[1,1024]. -/
theorem canLoop_true_spec (baud clock : Nat) :
    ∀ (l : List (Nat × Nat)) (out r : CanOutputs),
      canGetSpeedConfigLoop baud clock out l = (true, r) →
      ∃ e ∈ l, (clock / 2) % (baud * (e.1 + e.2 + 1)) = 0 ∧
        r = ⟨rawPrescaler baud clock e % 65536, e.1, e.2⟩ ∧
        0 < rawPrescaler baud clock e % 65536 ∧
        rawPrescaler baud clock e % 65536 ≤ 1024 := by
  intro l
  induction l with
  | nil => intro out r h; simp [canGetSpeedConfigLoop] at h
  | cons x xs ih =>
    intro out r h
    by_cases hmod : (clock / 2) % (baud * (x.1 + x.2 + 1)) = 0
    · by_cases hrange : 0 < ((clock / 2) / (baud * (x.1 + x.2 + 1))) % 65536 ∧
          ((clock / 2) / (baud * (x.1 + x.2 + 1))) % 65536 ≤ 1024
      · simp only [canGetSpeedConfigLoop] at h
        rw [if_pos hmod, if_pos hrange] at h
        have hr : r = ⟨((clock / 2) / (baud * (x.1 + x.2 + 1))) % 65536, x.1, x.2⟩ :=
          (Prod.mk.injEq _ _ _ _ ▸ h).2.symm
        refine ⟨x, by simp, hmod, ?_, ?_, ?_⟩
        · unfold rawPrescaler
          exact hr
        · unfold rawPrescaler
          exact hrange.1
        · unfold rawPrescaler
          exact hrange.2
      · simp only [canGetSpeedConfigLoop] at h
        rw [if_pos hmod, if_neg hrange] at h
        obtain ⟨e, he, rest⟩ := ih _ r h
        exact ⟨e, by simp [he], rest⟩
    · simp only [canGetSpeedConfigLoop] at h
      rw [if_neg hmod] at h
      obtain ⟨e, he, rest⟩ := ih out r h
      exact ⟨e, by simp [he], rest⟩

/-- C10 (amended): for baud positive and clock below 2^20 kHz, whenever
CanGetSpeedConfig returns true the delivered outputs reconstruct the
requested rate exactly: prescaler * baud * (tseg1 + tseg2 + 1) equals
clock/2, with prescaler in [1,1024], tseg1 in [5,16] and tseg2 in
[2,8]. -/
theorem canGetSpeedConfig_success_reconstructs (baud clock : Nat)
    (hb : 0 < baud) (hc : clock < 1048576) (out r : CanOutputs)
    (h : CanGetSpeedConfig baud clock out = (true, r)) :
    r.prescaler * baud * (r.tseg1 + r.tseg2 + 1) = clock / 2 ∧
    1 ≤ r.prescaler ∧ r.prescaler ≤ 1024 ∧
    5 ≤ r.tseg1 ∧ r.tseg1 ≤ 16 ∧ 2 ≤ r.tseg2 ∧ r.tseg2 ≤ 8 := by
  obtain ⟨e, he, hmod, hr, h1, h2⟩ := canLoop_true_spec baud clock canTiming out r h
  have hlt : rawPrescaler baud clock e < 65536 :=
    rawPrescaler_lt_of_clock baud clock hb hc e he
  have hmm : rawPrescaler baud clock e % 65536 = rawPrescaler baud clock e :=
    Nat.mod_eq_of_lt hlt
  rw [hmm] at hr h1 h2
  have hranges := canTiming_entry_ranges e he
  subst hr
  refine ⟨?_, h1, h2, hranges.1, hranges.2.1, hranges.2.2.1, hranges.2.2.2⟩
  have hdvd : (baud * (e.1 + e.2 + 1)) ∣ (clock / 2) := Nat.dvd_of_mod_eq_zero hmod
  have hcancel := Nat.div_mul_cancel hdvd
  show rawPrescaler baud clock e * baud * (e.1 + e.2 + 1) = clock / 2
  unfold rawPrescaler
  rw [Nat.mul_assoc]
  exact hcancel

/-- Witness for the amended C10 at baud 500 kbps and a 72 MHz clock. -/
theorem canGetSpeedConfig_success_witness :
    9 * 500 * (5 + 2 + 1) = 72000 / 2 ∧
    1 ≤ 9 ∧ 9 ≤ 1024 ∧ 5 ≤ 5 ∧ 5 ≤ 16 ∧ 2 ≤ 2 ∧ 2 ≤ 8 :=
  canGetSpeedConfig_success_reconstructs 500 72000 (by decide) (by decide)
    ⟨0, 0, 0⟩ ⟨9, 5, 2⟩ (by decide)

/-- C10 counterexample: at baud 1 kbps and a clock of 1048592 kHz the
first table row divides clock/2 = 524296 with quotient 65537; the
16-bit store truncates it to 1, which passes the range check, so
CanGetSpeedConfig returns true with prescaler 1 — but the outputs do
not reconstruct clock/2. -/
theorem canGetSpeedConfig_truncation_counterexample :
    CanGetSpeedConfig 1 1048592 ⟨0, 0, 0⟩ = (true, ⟨1, 5, 2⟩) ∧
    1 * 1 * (5 + 2 + 1) ≠ 1048592 / 2 := by
  exact ⟨by decide, by decide⟩

/-! ## Theorems about packet reception -/

/-- C6: for every pending frame, CanReceivePacket returns true (and so
delivers a payload) exactly when the frame's identifier value and
identifier width (standard vs extended, selected by the reserved high
bit 0x80000000 of the configured receive identifier) both match the
configured receive filter; a frame with a mismatched identifier or
width is never returned to the caller. -/
theorem canReceivePacket_filter_exact (cfg : Nat) (f : CanRxFrame)
    (data : List Nat) (len : Nat) :
    (CanReceivePacket cfg (some f) data len).1 = true ↔ filterAccepts cfg f := by
  unfold CanReceivePacket filterAccepts
  by_cases hc : cfg &&& 0x80000000 = 0
  · simp only [hc, if_true, if_pos trivial]
    cases hstd : f.stdId == cfg <;> cases hide : f.ide <;>
      simp_all
  · simp only [if_neg hc]
    cases hext : f.extId == (cfg &&& 0x7FFFFFFF) <;> cases hide : f.ide <;>
      simp_all

/-- C9: whenever CanReceivePacket returns false (no frame pending, or a
pending frame whose identifier or width does not match the configured
filter), the caller-supplied output buffers data and len are left
completely unmodified. -/
theorem canReceivePacket_false_unmodified (cfg : Nat)
    (pending : Option CanRxFrame) (data : List Nat) (len : Nat)
    (h : (CanReceivePacket cfg pending data len).1 = false) :
    (CanReceivePacket cfg pending data len).2.1 = data ∧
    (CanReceivePacket cfg pending data len).2.2 = len := by
  cases pending with
  | none => exact ⟨rfl, rfl⟩
  | some f =>
    have hval : CanReceivePacket cfg (some f) data len = (false, data, len) := by
      by_cases hm : (if cfg &&& 0x80000000 = 0 then
          f.stdId == cfg && f.ide == false
        else
          f.extId == (cfg &&& 0x7FFFFFFF) && f.ide == true) = true
      · exfalso
        have htrue : (CanReceivePacket cfg (some f) data len).1 = true := by
          simp only [CanReceivePacket]
          rw [if_pos hm]
        rw [h] at htrue
        exact Bool.false_ne_true htrue
      · simp only [CanReceivePacket]
        rw [if_neg hm]
    rw [hval]
    exact ⟨rfl, rfl⟩

/-- Witness for C9: a pending standard frame with identifier 292 against
a configured identifier 291 is rejected and the buffers keep their
initial contents. -/
theorem canReceivePacket_false_unmodified_witness :
    (CanReceivePacket 291 (some ⟨292, 0, false, 4, [9, 8, 7, 6, 0, 0, 0, 0]⟩)
        [1, 2, 3, 4, 5, 6, 7, 8] 3).2.1 = [1, 2, 3, 4, 5, 6, 7, 8] ∧
    (CanReceivePacket 291 (some ⟨292, 0, false, 4, [9, 8, 7, 6, 0, 0, 0, 0]⟩)
        [1, 2, 3, 4, 5, 6, 7, 8] 3).2.2 = 3 :=
  canReceivePacket_false_unmodified 291
    (some ⟨292, 0, false, 4, [9, 8, 7, 6, 0, 0, 0, 0]⟩)
    [1, 2, 3, 4, 5, 6, 7, 8] 3 (by decide)

/-! ## Theorems about the CPU module -/

/-- C7: for every length argument len (including 0, 1 and 65535),
CpuMemCopy and CpuMemSet invoke the watchdog-service hook CopService
exactly len times — once per byte copied or set — and zero times when
len is 0. -/
theorem cpuMemCopy_cpuMemSet_service_count :
    ∀ (dest src value : Nat) (mem : Nat → Nat) (len : Nat),
      (CpuMemCopy dest src mem len).2 = len ∧
      (CpuMemSet dest value mem len).2 = len := by
  have hcopy : ∀ (len dest src : Nat) (mem : Nat → Nat),
      (CpuMemCopy dest src mem len).2 = len := by
    intro len
    induction len with
    | zero => intro dest src mem; rfl
    | succ n ih =>
      intro dest src mem
      simp only [CpuMemCopy]
      rw [ih]
  have hset : ∀ (len dest value : Nat) (mem : Nat → Nat),
      (CpuMemSet dest value mem len).2 = len := by
    intro len
    induction len with
    | zero => intro dest value mem; rfl
    | succ n ih =>
      intro dest value mem
      simp only [CpuMemSet]
      rw [ih]
  intro dest src value mem len
  exact ⟨hcopy len dest src mem, hset len dest value mem⟩

/-- C2: for every state, if NvmVerifyChecksum reports an invalid image
then CpuStartUserProgram returns to its caller with no side effect at
all: no channel release, no timer reset, no vector-table-base write, no
interrupt enable, and no control transfer. -/
theorem cpuStartUserProgram_invalid_checksum_no_effects (env : BootEnv)
    (h : env.checksumOk = false) :
    CpuStartUserProgram env = ([], BootOutcome.ret) := by
  unfold CpuStartUserProgram
  rw [if_pos h]

/-- Witness for C2 with a concrete environment whose checksum fails. -/
theorem cpuStartUserProgram_invalid_checksum_witness :
    CpuStartUserProgram ⟨false, true, true, true, 0x08000000, fun _ => 4097⟩ =
      ([], BootOutcome.ret) :=
  cpuStartUserProgram_invalid_checksum_no_effects
    ⟨false, true, true, true, 0x08000000, fun _ => 4097⟩ rfl

/-- C1: with a valid checksum, a hook that is absent or does not veto,
and the communication interface compiled in, CpuStartUserProgram
performs exactly, and in this order: ComFree, TimerReset, the
vector-table-base write, CpuIrqEnable, and then jumps to the address
read from base + 4 without returning. -/
theorem cpuStartUserProgram_valid_order (env : BootEnv)
    (hck : env.checksumOk = true)
    (hhook : env.hookEnabled = false ∨ env.hookAllows = true)
    (hcom : env.comEnabled = true) :
    CpuStartUserProgram env =
      ([BootEvent.comFree, BootEvent.timerReset,
        BootEvent.vtorWrite (env.progBase &&& 0x1FFFFF80),
        BootEvent.irqEnable],
       BootOutcome.jump (env.readWord (env.progBase + 4))) ∧
    (CpuStartUserProgram env).2 ≠ BootOutcome.ret := by
  have hgate : ¬(env.hookEnabled = true ∧ env.hookAllows = false) := by
    rcases hhook with h | h <;> simp [h]
  have h1 : CpuStartUserProgram env =
      ([BootEvent.comFree, BootEvent.timerReset,
        BootEvent.vtorWrite (env.progBase &&& 0x1FFFFF80),
        BootEvent.irqEnable],
       BootOutcome.jump (env.readWord (env.progBase + 4))) := by
    unfold CpuStartUserProgram
    rw [if_neg (by simp [hck]), if_neg hgate, if_pos hcom]
    rfl
  refine ⟨h1, ?_⟩
  rw [h1]
  simp

/-- Witness for C1 with a concrete environment. -/
theorem cpuStartUserProgram_valid_order_witness :
    CpuStartUserProgram ⟨true, false, true, true, 0x08000000, fun _ => 4097⟩ =
      ([BootEvent.comFree, BootEvent.timerReset,
        BootEvent.vtorWrite 0x08000000, BootEvent.irqEnable],
       BootOutcome.jump 4097) ∧
    (CpuStartUserProgram ⟨true, false, true, true, 0x08000000, fun _ => 4097⟩).2 ≠
      BootOutcome.ret := by
  have h := cpuStartUserProgram_valid_order
    ⟨true, false, true, true, 0x08000000, fun _ => 4097⟩ rfl (Or.inl rfl) rfl
  exact ⟨by rw [h.1]; decide, h.2⟩

/-- C5 (amended): the value CpuStartUserProgram writes to the
vector-table-base register equals the user program base address AND
0x1FFFFF80: its lowest 7 bits are forced to zero (128-byte alignment)
and it is confined to a 29-bit addressable window (bits 29-31 cleared;
the mask keeps address bits 7 through 28). -/
theorem cpuStartUserProgram_vtor_mask (env : BootEnv)
    (hck : env.checksumOk = true)
    (hhook : env.hookEnabled = false ∨ env.hookAllows = true) :
    ∃ v, BootEvent.vtorWrite v ∈ (CpuStartUserProgram env).1 ∧
      v = env.progBase &&& 0x1FFFFF80 ∧ v % 128 = 0 ∧ v < 2 ^ 29 := by
  have hgate : ¬(env.hookEnabled = true ∧ env.hookAllows = false) := by
    rcases hhook with h | h <;> simp [h]
  refine ⟨env.progBase &&& 0x1FFFFF80, ?_, rfl, ?_, ?_⟩
  · unfold CpuStartUserProgram
    rw [if_neg (by simp [hck]), if_neg hgate]
    cases hcom : env.comEnabled <;> simp [hcom]
  · have h1 : (env.progBase &&& 0x1FFFFF80) &&& 127 = 0 := by
      rw [Nat.and_assoc, show (0x1FFFFF80 : Nat) &&& 127 = 0 by decide, Nat.and_zero]
    have h2 := Nat.and_pow_two_sub_one_eq_mod (env.progBase &&& 0x1FFFFF80) 7
    norm_num at h2
    rw [← h2, h1]
  · have hle : env.progBase &&& 0x1FFFFF80 ≤ 0x1FFFFF80 := Nat.and_le_right
    have hlt : (0x1FFFFF80 : Nat) < 2 ^ 29 := by norm_num
    omega

/-- Witness for the amended C5 with a concrete environment. -/
theorem cpuStartUserProgram_vtor_mask_witness :
    ∃ v, BootEvent.vtorWrite v ∈
        (CpuStartUserProgram ⟨true, false, true, true, 0x08001200, fun _ => 0⟩).1 ∧
      v = 0x08001200 &&& 0x1FFFFF80 ∧ v % 128 = 0 ∧ v < 2 ^ 29 :=
  cpuStartUserProgram_vtor_mask ⟨true, false, true, true, 0x08001200, fun _ => 0⟩
    rfl (Or.inl rfl)

/-- C5 counterexample: with the typical flash base address 0x08000000
the code writes 0x08000000 to the vector-table-base register, a value
that is not inside a 21-bit addressable window and differs from the
base masked to 21 bits above the 7 alignment bits, so the written value
is not base AND a mask confining it to a 21-bit window. -/
theorem cpuStartUserProgram_vtor_21bit_counterexample :
    BootEvent.vtorWrite 0x08000000 ∈
      (CpuStartUserProgram ⟨true, false, true, true, 0x08000000, fun _ => 0⟩).1 ∧
    ¬((0x08000000 : Nat) < 2 ^ 21) ∧
    (0x08000000 : Nat) ≠ 0x08000000 &&& 0x1FFF80 := by
  exact ⟨by decide, by decide, by decide⟩
